import Mathlib

/-!
Verification of the github-repo-to-single-file exporter.

Shallow embedding conventions:
* JavaScript strings are embedded as `List Char`; byte buffers as `List Nat`
  (each element a byte value).
* Numeric config constants from `src/config.ts` (which is not part of the
  sources) are taken as parameters where their value matters
  (`cap` for `MAX_TEXT_BLOB_BYTES`, the extension sets for
  `SKIP_EXTENSIONS` / `TEXT_EXTENSIONS`, `outDir` for `OUT_DIR`).
* Platform primitives (node `Buffer` base64 decoding, `TextDecoder`,
  `path.resolve`) are modelled explicitly where their behaviour is load
  bearing (`normalizeResolve` models POSIX `path.resolve`) and kept as
  opaque environment parameters where it is not (base64 / utf-8 decoding
  inside the collector).
-/

/-- Chars of a string literal, used to embed JS string literals as `List Char`. -/
def str (s : String) : List Char := s.data

/-- Decimal rendering of a natural number as chars (JS template interpolation
of a number). -/
def natChars (n : Nat) : List Char := (toString n).data

/-- `s.take pat.length == pat` — JS `String.prototype.startsWith` on char lists. -/
def startsWithL (pat s : List Char) : Bool := s.take pat.length == pat

/-- JS `String.prototype.endsWith` on char lists. -/
def endsWithL (pat s : List Char) : Bool := startsWithL pat.reverse s.reverse

/-- JS `String.prototype.includes` on char lists. -/
def hasSub (pat : List Char) : List Char → Bool
  | [] => pat == []
  | c :: rest => startsWithL pat (c :: rest) || hasSub pat rest

/-! ## src/text.ts -/

/-- `extractExtension` (src/text.ts): lowercased suffix from the last dot,
`none` when the path has no dot. -/
def lowerChar (c : Char) : Char :=
  match c with
  | 'A' => 'a' | 'B' => 'b' | 'C' => 'c' | 'D' => 'd' | 'E' => 'e'
  | 'F' => 'f' | 'G' => 'g' | 'H' => 'h' | 'I' => 'i' | 'J' => 'j'
  | 'K' => 'k' | 'L' => 'l' | 'M' => 'm' | 'N' => 'n' | 'O' => 'o'
  | 'P' => 'p' | 'Q' => 'q' | 'R' => 'r' | 'S' => 's' | 'T' => 't'
  | 'U' => 'u' | 'V' => 'v' | 'W' => 'w' | 'X' => 'x' | 'Y' => 'y'
  | 'Z' => 'z'
  | other => other

/-- JS `String.prototype.toLowerCase`, modelled for the ASCII range. -/
def toLowerL (s : List Char) : List Char := s.map lowerChar

/-- The chars after the last `.` of the lowercased path, with the dot;
`none` when there is no dot (src/text.ts `extractExtension`). -/
def extractExtension (path : List Char) : Option (List Char) :=
  let lower := toLowerL path
  let revTail := lower.reverse.takeWhile (fun c => !(c == '.'))
  if revTail.length == lower.length then none
  else some ('.' :: revTail.reverse)

/-- Path separator test used by the basename regex `/^.*[\\/]/`. -/
def isSep (c : Char) : Bool := c == '/' || c == '\\'

/-- The basename: chars after the last `/` or `\`. -/
def basenameOf (s : List Char) : List Char :=
  (s.reverse.takeWhile (fun c => !isSep c)).reverse

/-- `isLockFile` (src/text.ts lines 9-17). -/
def isLockFile (path : List Char) : Bool :=
  let base := basenameOf (toLowerL path)
  (base == str ("lockfile") || startsWithL (str ("lockfile.")) base)
  || (endsWithL (str (".lock")) base || endsWithL (str (".lockfile")) base)
  || hasSub (str ("-lock.")) base
  || (base == str ("yarn.lock") || base == str ("pnpm-lock.yaml")
      || base == str ("pnpm-lock.yml"))

/-- `hasSkippedExtension` (src/text.ts lines 19-23), with the
`SKIP_EXTENSIONS` set (config.ts, not in the sources) as a parameter. -/
def hasSkippedExtension (skipExts : List (List Char)) (path : List Char) : Bool :=
  isLockFile path ||
    (match extractExtension path with
     | some ext => skipExts.contains ext
     | none => false)

/-- `looksTexty` (src/text.ts lines 25-43).  The fraction test
`nonPrintable / sample.length < 0.1` is embedded as
`nonPrintable * 10 < sample.length`. -/
def looksTexty (skipExts textExts : List (List Char))
    (path : List Char) (bytes : List Nat) : Bool :=
  if hasSkippedExtension skipExts path then false
  else if (match extractExtension path with
           | some ext => textExts.contains ext
           | none => false) then true
  else
    let sample := bytes.take 2048
    if sample.isEmpty then true
    else
      let nonPrintable := sample.foldl
        (fun count byte =>
          if byte == 9 || byte == 10 || byte == 13 then count
          else if byte < 32 || byte == 0 then count + 1
          else count) 0
      nonPrintable * 10 < sample.length

/-- The classifier outcome: text-like (include) or skip. -/
inductive Classification
  | text
  | skip
deriving DecidableEq

/-- Classification of one blob from its path and content sample. -/
def classify (skipExts textExts : List (List Char))
    (path : List Char) (bytes : List Nat) : Classification :=
  if looksTexty skipExts textExts path bytes then .text else .skip

/-- `headerFor` (src/text.ts lines 50-53). -/
def sepLine : List Char := List.replicate 80 '='

/-- The per-file framing header emitted before each file's content. -/
def headerFor (path : List Char) : List Char :=
  str ("\n") ++ sepLine ++ str ("\n") ++ str ("FILE: ") ++ path
    ++ str ("\n") ++ sepLine ++ str ("\n")

/-- `ensureTrailingNewline` (src/text.ts lines 55-57). -/
def ensureTrailingNewline (value : List Char) : List Char :=
  if value.getLast? == some '\n' then value else value ++ str ("\n")

/-- Whether a char list ends with exactly one `\n` (the spec's
"normalized to end with exactly one trailing newline"). -/
def endsWithOneNewline (l : List Char) : Bool :=
  l.getLast? == some '\n' && !(l.dropLast.getLast? == some '\n')

/-- One framed file section as written by `exportToText`
(src/exporter.ts lines 273-277): header framing then normalized content. -/
def fileSection (path content : List Char) : List Char :=
  headerFor path ++ ensureTrailingNewline content

/-- All file sections of the assembled output, in file order. -/
def exportFileSections (files : List (List Char × List Char)) : List Char :=
  (files.map (fun f => fileSection f.1 f.2)).flatten

/-! ## src/pdf.ts -/

def PAGE_WIDTH : Nat := 612
def PAGE_HEIGHT : Nat := 792
def LEFT_MARGIN : Nat := 40
def TOP_MARGIN : Nat := 48
def BOTTOM_MARGIN : Nat := 48
def FONT_SIZE : Nat := 10
def LINE_HEIGHT : Nat := 12

/-- Usable lines per page: `max(1, floor(usableHeight / LINE_HEIGHT))`
(src/pdf.ts lines 33-34). -/
def maxLinesPerPage : Nat :=
  max 1 ((PAGE_HEIGHT - TOP_MARGIN - BOTTOM_MARGIN) / LINE_HEIGHT)

/-- Successive slices of `m` elements (the loop of src/pdf.ts lines 36-38,
`pages.push(lines.slice(i, i + m))` with `i += m`), written so the
recursion consumes at least one element per step. -/
def chunkList (m : Nat) : List α → List (List α)
  | [] => []
  | a :: rest => (a :: rest.take (m - 1)) :: chunkList m (rest.drop (m - 1))
termination_by l => l.length
decreasing_by simp [List.length_drop]; omega

/-- `splitIntoPages` (src/pdf.ts lines 32-43). -/
def splitIntoPages (lines : List (List Char)) : List (List (List Char)) :=
  let pages := chunkList maxLinesPerPage lines
  if pages.isEmpty then [[[]]] else pages

/-- `escapePdfText` (src/pdf.ts lines 23-30): the chained regex replaces act
independently on each source char, so they are embedded as one per-char map. -/
def escapePdfChar (c : Char) : List Char :=
  match c with
  | '\\' => str ("\\\\")
  | '(' => str ("\\(")
  | ')' => str ("\\)")
  | '\r' => str (" ")
  | '\t' => str (" ")
  | other => if other.toNat < 32 && !(other == '\n') then [] else [other]

def escapePdfText (line : List Char) : List Char := line.flatMap escapePdfChar

/-- `buildContentStream` (src/pdf.ts lines 45-52). -/
def buildContentStream (lines : List (List Char)) : List Char :=
  let startY := PAGE_HEIGHT - TOP_MARGIN
  let header := str ("BT\n/F1 ") ++ natChars FONT_SIZE ++ str (" Tf\n1 0 0 1 ")
    ++ natChars LEFT_MARGIN ++ str (" ") ++ natChars startY ++ str (" Tm\n")
    ++ natChars LINE_HEIGHT ++ str (" TL")
  let body := List.intercalate (str ("\n"))
    (lines.map (fun line => str ("(") ++ escapePdfText line ++ str (") Tj\nT*")))
  header ++ str ("\n") ++ body ++ str ("\nET")

/-- UTF-8 encoding of one char (`Buffer.byteLength(s, "utf8")` and
`Buffer.from(s, "utf8")` count/produce these bytes). -/
def utf8EncodeCharL (c : Char) : List Nat :=
  let n := c.toNat
  if n < 128 then [n]
  else if n < 2048 then [192 + n / 64, 128 + n % 64]
  else if n < 65536 then [224 + n / 4096, 128 + (n / 64) % 64, 128 + n % 64]
  else [240 + n / 262144, 128 + (n / 4096) % 64, 128 + (n / 64) % 64, 128 + n % 64]

/-- The UTF-8 byte stream of a char list. -/
def utf8Bytes (s : List Char) : List Nat := s.flatMap utf8EncodeCharL

/-- The font object content (src/pdf.ts lines 70-72); it receives id 1. -/
def fontObjectContent : List Char :=
  str ("<< /Type /Font /Subtype /Type1 /BaseFont /Helvetica >>")

/-- A content-stream object (src/pdf.ts lines 79-86): `/Length` is the byte
length of the stream text. -/
def contentObjContent (page : List (List Char)) : List Char :=
  let stream := buildContentStream page
  str ("<< /Length ") ++ natChars (utf8Bytes stream).length
    ++ str (" >>\nstream\n") ++ stream ++ str ("\nendstream")

/-- Object id of the pages collection for an `n`-page document: font gets 1,
content streams 2..n+1, page objects n+2..2n+1, then the pages collection. -/
def pagesObjId (n : Nat) : Nat := 2 * n + 2

/-- Object id of the catalog for an `n`-page document. -/
def catalogObjId (n : Nat) : Nat := 2 * n + 3

/-- A page object (src/pdf.ts lines 99-105); page index `i` is 0-based. -/
def pageObjContent (n i : Nat) : List Char :=
  str ("<< /Type /Page /Parent ") ++ natChars (pagesObjId n)
    ++ str (" 0 R /Resources << /Font << /F1 ") ++ natChars 1
    ++ str (" 0 R >> >> /MediaBox [0 0 ") ++ natChars PAGE_WIDTH ++ str (" ")
    ++ natChars PAGE_HEIGHT ++ str ("] /Contents ") ++ natChars (2 + i)
    ++ str (" 0 R >>")

/-- The pages-collection object (src/pdf.ts lines 93-97). -/
def pagesObjContent (n : Nat) : List Char :=
  let kids := List.intercalate (str (" "))
    ((List.range n).map (fun i => natChars (n + 2 + i) ++ str (" 0 R")))
  str ("<< /Type /Pages /Count ") ++ natChars n ++ str (" /Kids [") ++ kids
    ++ str ("] >>")

/-- The catalog object (src/pdf.ts line 107). -/
def catalogObjContent (n : Nat) : List Char :=
  str ("<< /Type /Catalog /Pages ") ++ natChars (pagesObjId n) ++ str (" 0 R >>")

/-- The fully populated object table in identifier order.  The source builds
it by `createObject`/`setObject` mutation; after the assignment phase every
slot holds exactly these contents (the `Uninitialised PDF object` guard at
src/pdf.ts line 114 never fires). -/
def pdfObjects (pages : List (List (List Char))) : List (List Char) :=
  let n := pages.length
  [fontObjectContent] ++ pages.map contentObjContent
    ++ (List.range n).map (pageObjContent n)
    ++ [pagesObjContent n, catalogObjContent n]

/-- One serialized object: `<id> 0 obj\n<content>\nendobj\n` with 0-based
index `idx` (src/pdf.ts line 117). -/
def objEntry (idx : Nat) (content : List Char) : List Char :=
  natChars (idx + 1) ++ str (" 0 obj\n") ++ content ++ str ("\nendobj\n")

def pdfHeader : List Char := str ("%PDF-1.4\n")

/-- The emission loop (src/pdf.ts lines 112-118): for each object, record the
current byte length of the accumulated document, then append the object's
entry.  Returns the accumulated document and the recorded offsets. -/
def emitObjects (idx : Nat) (pdf : List Char) :
    List (List Char) → List Char × List Nat
  | [] => (pdf, [])
  | c :: rest =>
    let off := (utf8Bytes pdf).length
    let r := emitObjects (idx + 1) (pdf ++ objEntry idx c) rest
    (r.1, off :: r.2)

/-- `padStart(10, "0")` (src/pdf.ts line 123). -/
def pad10 (s : List Char) : List Char := List.replicate (10 - s.length) '0' ++ s

/-- The xref table and trailer (src/pdf.ts lines 120-125). -/
def xrefSection (objCount : Nat) (offsets : List Nat) (catalogId : Nat)
    (xrefOffset : Nat) : List Char :=
  str ("xref\n0 ") ++ natChars (objCount + 1) ++ str ("\n0000000000 65535 f \n")
    ++ (offsets.map (fun o => pad10 (natChars o) ++ str (" 00000 n \n"))).flatten
    ++ str ("trailer\n<< /Size ") ++ natChars (objCount + 1) ++ str (" /Root ")
    ++ natChars catalogId ++ str (" 0 R >>\nstartxref\n") ++ natChars xrefOffset
    ++ str ("\n%%EOF")

/-- The complete emitted document of `createPdfBuffers` (src/pdf.ts 54-128). -/
def createPdfString (pages : List (List (List Char))) : List Char :=
  let objs := pdfObjects pages
  let emitted := emitObjects 0 pdfHeader objs
  let xrefOffset := (utf8Bytes emitted.1).length
  emitted.1 ++ xrefSection objs.length emitted.2 (catalogObjId pages.length) xrefOffset

/-- The offsets recorded in the cross-reference table. -/
def pdfOffsets (pages : List (List (List Char))) : List Nat :=
  (emitObjects 0 pdfHeader (pdfObjects pages)).2

/-- The `<id> 0 obj` tag expected at a recorded offset (0-based index). -/
def objTag (idx : Nat) : List Char := natChars (idx + 1) ++ str (" 0 obj")

/-- The concatenation of the serialized entries of consecutive objects
starting at 0-based index `idx` (the text `emitObjects` appends). -/
def entriesJoin (idx : Nat) : List (List Char) → List Char
  | [] => []
  | c :: rest => objEntry idx c ++ entriesJoin (idx + 1) rest

/-! ## src/types.ts and src/exporter.ts data model -/

structure GitTreeItem where
  path : List Char
  mode : List Char
  type : List Char
  sha : List Char
  size : Option Nat
  url : List Char

structure RepositoryOutline where
  owner : List Char
  repo : List Char
  repoName : List Char
  branch : List Char
  blobs : List GitTreeItem
  eligibleBlobs : List GitTreeItem
  skippedLarge : Nat
  skippedExtension : Nat
  treeTruncated : Bool

/-- `loadRepositoryOutline` (src/exporter.ts lines 83-117) applied to a
fetched tree listing; `cap` stands for `MAX_TEXT_BLOB_BYTES` (config.ts is
not among the sources). -/
def loadRepositoryOutline (skipExts : List (List Char)) (cap : Nat)
    (owner repo repoName branch : List Char)
    (tree : List GitTreeItem) (truncated : Bool) : RepositoryOutline :=
  let blobs := tree.filter (fun entry => entry.type == str ("blob"))
  let filteredByExtension :=
    blobs.filter (fun blob => !hasSkippedExtension skipExts blob.path)
  let extensionSkipped := blobs.length - filteredByExtension.length
  let eligibleBlobs := filteredByExtension.filter (fun blob =>
    match blob.size with
    | none => true
    | some s => decide (s ≤ cap))
  { owner := owner, repo := repo, repoName := repoName, branch := branch,
    blobs := blobs, eligibleBlobs := eligibleBlobs,
    skippedLarge := filteredByExtension.length - eligibleBlobs.length,
    skippedExtension := extensionSkipped,
    treeTruncated := truncated }

/-! ## src/exporter.ts collector -/

inductive ProgressState
  | included
  | cached
  | skipped
deriving DecidableEq

structure ProgressEvent where
  processed : Nat
  total : Nat
  path : List Char
  state : ProgressState

structure BlobResponse where
  content : List Char
  encoding : List Char
  size : Nat

/-- The collector's environment: the checkpoint cache, the remote blob
fetcher, and the platform base64 / utf-8 decoders (`Buffer.from(_, "base64")`
and `TextDecoder`), all external to the embedded code. -/
structure CollectEnv where
  cachedRead : List Char → Option (List Char)
  getBlob : List Char → BlobResponse
  decodeBase64 : List Char → List Nat
  utf8Decode : List Nat → List Char

inductive OutcomeItem
  | included (path content : List Char)
  | cached (path content : List Char)
  | skipped (path : List Char)

/-- One worker body of `collectTextFiles` (src/exporter.ts lines 149-210):
each branch bumps the shared counter once and emits exactly one progress
event.  The increment and the emission happen with no interleaving point
between them, so the counter is threaded sequentially. -/
def processItem (skipExts textExts : List (List Char)) (env : CollectEnv)
    (total : Nat) (processed : Nat) (item : GitTreeItem) :
    OutcomeItem × Nat × ProgressEvent :=
  match env.cachedRead item.path with
  | some cachedContent =>
    (.cached item.path cachedContent, processed + 1,
      ⟨processed + 1, total, item.path, .cached⟩)
  | none =>
    let blob := env.getBlob item.sha
    if !(blob.encoding == str ("base64")) then
      (.skipped item.path, processed + 1,
        ⟨processed + 1, total, item.path, .skipped⟩)
    else
      let bytes := env.decodeBase64 blob.content
      if !looksTexty skipExts textExts item.path bytes then
        (.skipped item.path, processed + 1,
          ⟨processed + 1, total, item.path, .skipped⟩)
      else
        let text := env.utf8Decode bytes
        (.included item.path text, processed + 1,
          ⟨processed + 1, total, item.path, .included⟩)

/-- Lexicographic char-code comparison standing for
`a.path.localeCompare(b.path)` at src/exporter.ts line 134. -/
def charListLe : List Char → List Char → Bool
  | [], _ => true
  | _ :: _, [] => false
  | a :: xs, b :: ys => if a == b then charListLe xs ys else decide (a < b)

/-- Running the collector over the sorted items, threading the shared
`processed` counter and accumulating outcomes and events in item order. -/
def collectRun (skipExts textExts : List (List Char)) (env : CollectEnv)
    (total : Nat) : List GitTreeItem → Nat → List OutcomeItem × Nat × List ProgressEvent
  | [], processed => ([], processed, [])
  | item :: rest, processed =>
    let stepR := processItem skipExts textExts env total processed item
    let r := collectRun skipExts textExts env total rest stepR.2.1
    (stepR.1 :: r.1, r.2.1, stepR.2.2 :: r.2.2)

/-- The final reduce of src/exporter.ts lines 213-223: included and cached
outcomes become files (in outcome order), skipped outcomes are counted. -/
def reduceOutcomes : List OutcomeItem → List (List Char × List Char) × Nat
  | [] => ([], 0)
  | o :: rest =>
    let r := reduceOutcomes rest
    match o with
    | .included p c => ((p, c) :: r.1, r.2)
    | .cached p c => ((p, c) :: r.1, r.2)
    | .skipped _ => (r.1, r.2 + 1)

structure CollectOutcome where
  files : List (List Char × List Char)
  skippedBinary : Nat
  finalProcessed : Nat
  events : List ProgressEvent

/-- `collectTextFiles` (src/exporter.ts lines 128-226). -/
def collectTextFiles (skipExts textExts : List (List Char)) (env : CollectEnv)
    (outline : RepositoryOutline) : CollectOutcome :=
  let sorted := outline.eligibleBlobs.mergeSort (fun a b => charListLe a.path b.path)
  let run := collectRun skipExts textExts env sorted.length sorted 0
  let red := reduceOutcomes run.1
  ⟨red.1, red.2, run.2.1, run.2.2⟩

structure ExportSummary where
  included : Nat
  skippedBinary : Nat
  skippedLarge : Nat
  skippedExtension : Nat
  total : Nat
  truncatedTree : Bool

/-- The summary assembled by `exportRepositoryToSingleFile`
(src/exporter.ts lines 393-400). -/
def exportSummaryOf (skipExts textExts : List (List Char)) (env : CollectEnv)
    (outline : RepositoryOutline) : ExportSummary :=
  let c := collectTextFiles skipExts textExts env outline
  ⟨c.files.length, c.skippedBinary, outline.skippedLarge,
    outline.skippedExtension, outline.blobs.length, outline.treeTruncated⟩

/-! ## src/progress/pdfProgressReporter.ts -/

inductive PdfStage
  | render
  | write
deriving DecidableEq

structure StageState where
  processed : Int
  total : Int
deriving DecidableEq

/-- The reporter's mutable state plus the sequence of `(processed, total)`
pairs published to the sink's `update` so far. -/
structure ReporterState where
  render : StageState
  write : StageState
  currentStage : PdfStage
  started : Bool
  updates : List (Int × Int)
  finished : Bool

def initialReporter : ReporterState :=
  ⟨⟨0, 0⟩, ⟨0, 0⟩, .render, false, [], false⟩

def aggregateTotal (s : ReporterState) : Int :=
  max (s.render.total + s.write.total)
    (max (s.render.processed + s.write.processed) 1)

def aggregateProcessed (s : ReporterState) : Int :=
  s.render.processed + s.write.processed

/-- `publish` (pdfProgressReporter lines 168-182): one `sink.update`. -/
def publish (s : ReporterState) : ReporterState :=
  { s with updates := s.updates ++ [(aggregateProcessed s, aggregateTotal s)] }

structure PdfStageReport where
  stage : PdfStage
  processed : Int
  total : Int

/-- `initialise` (pdfProgressReporter lines 110-122). -/
def initialiseR (s : ReporterState) (renderTotal writeTotal : Int) : ReporterState :=
  publish { s with
    render := ⟨0, max renderTotal 0⟩,
    write := ⟨0, max writeTotal 0⟩,
    currentStage := .render,
    started := true }

/-- `updateStageState` (pdfProgressReporter lines 144-152): the reported
stage's state is overwritten with the clamped values. -/
def updateStage (s : ReporterState) (ev : PdfStageReport) : ReporterState :=
  let safeTotal := max ev.total 0
  let bounded := min (max ev.processed 0) safeTotal
  match ev.stage with
  | .render => { s with render := ⟨bounded, safeTotal⟩ }
  | .write => { s with write := ⟨bounded, safeTotal⟩ }

/-- `report` (pdfProgressReporter lines 124-132). -/
def reportR (s : ReporterState) (ev : PdfStageReport) : ReporterState :=
  let s1 := if !s.started then initialiseR s ev.total 0 else s
  publish { (updateStage s1 ev) with currentStage := ev.stage }

/-- `complete` (pdfProgressReporter lines 134-142). -/
def completeR (s : ReporterState) : ReporterState :=
  if !s.started then s
  else
    let s1 := { s with
      render := ⟨s.render.total, s.render.total⟩,
      write := ⟨s.write.total, s.write.total⟩ }
    { (publish s1) with finished := true, started := false }

/-- The state after a sequence of `report` calls. -/
def runReports (evs : List PdfStageReport) : ReporterState :=
  evs.foldl reportR initialReporter

/-- The state after a sequence of `report` calls followed by `complete`. -/
def finalReporter (evs : List PdfStageReport) : ReporterState :=
  completeR (runReports evs)

/-! ## src/concurrency.ts -/

inductive RunnerState
  | idle
  | working (k : Nat)
  | done
deriving DecidableEq

/-- The pool's shared state: the claim cursor, the result slots and each
runner's position in its loop.  A runner is `idle` at the loop head,
`working k` while awaiting `worker(items[k])`, and `done` after its break. -/
structure PoolState (ρ : Type) where
  cursor : Nat
  results : List (Option ρ)
  runners : List RunnerState

/-- One atomic step of runner `j` (src/concurrency.ts lines 13-20).  In the
single-threaded runtime, reading the cursor, the bounds check and the
increment happen with no interleaving point, so claiming an index is one
step; completing the awaited worker and storing its result is the other. -/
def stepRunner (items : List α) (f : α → ρ) (s : PoolState ρ) (j : Nat) :
    PoolState ρ :=
  match s.runners.getD j .done with
  | .idle =>
    if s.cursor < items.length then
      { s with cursor := s.cursor + 1,
               runners := s.runners.set j (.working s.cursor) }
    else
      { s with runners := s.runners.set j .done }
  | .working k =>
    { s with results := s.results.set k (items[k]?.map f),
             runners := s.runners.set j .idle }
  | .done => s

/-- Initial pool: no index claimed, `Math.min(limit, items.length)` runners
(src/concurrency.ts line 13), empty result slots. -/
def initPool (ρ : Type) (n runnerCount : Nat) : PoolState ρ :=
  ⟨0, List.replicate n none, List.replicate runnerCount .idle⟩

/-- The pool after the scheduler interleaves the runners as dictated by
`sched` (each entry names the runner taking the next atomic step). -/
def runPool (items : List α) (limit : Nat) (f : α → ρ) (sched : List Nat) :
    PoolState ρ :=
  sched.foldl (stepRunner items f) (initPool ρ items.length (min limit items.length))

/-- All runners have exited their loops. -/
def allDone (s : PoolState ρ) : Bool := s.runners.all (fun r => r == .done)

/-- `mapWithConcurrency` (src/concurrency.ts lines 1-24) under an explicit
scheduler: the guard rejects `limit < 1`, otherwise the result slots of the
scheduled run are returned. -/
def mapWithConcurrency (items : List α) (limit : Nat) (f : α → ρ)
    (sched : List Nat) : Except (List Char) (List (Option ρ)) :=
  if limit < 1 then .error (str ("Concurrency limit must be at least 1"))
  else .ok (runPool items limit f sched).results

/-- The pool's inductive invariant: result slots below the cursor are either
written with the worker's value or held by exactly one working runner,
slots at or above the cursor are unwritten, and a runner only exits once
the cursor has exhausted the items. -/
structure PoolInv (items : List α) (f : α → ρ) (s : PoolState ρ) : Prop where
  rlen : s.results.length = items.length
  cle : s.cursor ≤ items.length
  unclaimed : ∀ (k : Nat), s.cursor ≤ k → s.results.getD k none = none
  workingLt : ∀ (j k : Nat), s.runners[j]? = some (RunnerState.working k) →
      k < s.cursor ∧ s.results.getD k none = none
  workingUniq : ∀ (j j2 k : Nat), j ≠ j2 →
      s.runners[j]? = some (RunnerState.working k) →
      s.runners[j2]? ≠ some (RunnerState.working k)
  claimed : ∀ (k : Nat), k < s.cursor → s.results.getD k none = none →
      ∃ j : Nat, s.runners[j]? = some (RunnerState.working k)
  resOk : ∀ (k : Nat), s.results.getD k none ≠ none →
      s.results.getD k none = items[k]?.map f
  doneCursor : (∃ j : Nat, s.runners[j]? = some RunnerState.done) →
      items.length ≤ s.cursor

/-! ## src/checkpoint.ts -/

/-- `relativePath.replace(/^\/+/, "")` (src/checkpoint.ts `resolveWithin`). -/
def stripLeadSlashes (p : List Char) : List Char :=
  p.dropWhile (fun c => c == '/')

/-- One step of POSIX path normalization: empty and `.` segments are
dropped, `..` pops (never above the root), others are appended. -/
def resolveFold (acc : List (List Char)) (seg : List Char) : List (List Char) :=
  if seg == [] || seg == str (".") then acc
  else if seg == str ("..") then acc.dropLast
  else acc ++ [seg]

/-- Model of node `path.resolve(base, rel)` for an absolute `base` and a
relative `rel`: the joined segments are normalized and re-joined with `/`. -/
def normalizeResolve (base rel : List Char) : List Char :=
  let segs := base.splitOn '/' ++ rel.splitOn '/'
  '/' :: List.intercalate (str ("/")) (segs.foldl resolveFold [])

/-- The path-violation error message of `resolveWithin`. -/
def pathViolation (rel : List Char) : List Char :=
  str ("Resolved path escapes work directory: ") ++ rel

/-- `resolveWithin` (src/checkpoint.ts, lines 207-214 of the concatenated
io sources): leading slashes are stripped, the remainder is resolved against
the base, and the result must extend `resolve(base)` as a string prefix. -/
def resolveWithin (base rel : List Char) : Except (List Char) (List Char) :=
  let cleaned := stripLeadSlashes rel
  let full := normalizeResolve base cleaned
  if startsWithL (normalizeResolve base []) full then .ok full
  else .error (pathViolation rel)

/-- A char allowed by the sanitizer's class `[a-z0-9._-]` with the `i` flag. -/
def allowedSan (c : Char) : Bool :=
  decide ((97 ≤ c.toNat ∧ c.toNat ≤ 122) ∨ (65 ≤ c.toNat ∧ c.toNat ≤ 90)
    ∨ (48 ≤ c.toNat ∧ c.toNat ≤ 57)) || c == '.' || c == '_' || c == '-'

/-- `replace(/[^a-z0-9._-]+/gi, "-")`: each maximal run of disallowed chars
becomes a single `-`; `inRun` records being inside such a run. -/
def sanCollapseAux (inRun : Bool) : List Char → List Char
  | [] => []
  | c :: rest =>
    if allowedSan c then c :: sanCollapseAux false rest
    else if inRun then sanCollapseAux true rest
    else '-' :: sanCollapseAux true rest

def sanCollapse (s : List Char) : List Char := sanCollapseAux false s

/-- `replace(/^-+|-+$/g, "")`. -/
def trimDashes (s : List Char) : List Char :=
  ((s.dropWhile (fun c => c == '-')).reverse.dropWhile (fun c => c == '-')).reverse

/-- `sanitizeSegment` (src/checkpoint.ts). -/
def sanitizeSegment (s : List Char) : List Char := trimDashes (sanCollapse s)

/-- `workDirectoryFor` (src/checkpoint.ts): `join(OUT_DIR, ".work",
"owner--repo--branch")`; `outDir` stands for `OUT_DIR` (config.ts is not
among the sources) and is taken absolute and normalized. -/
def workDirectoryFor (outDir owner repoName branch : List Char) : List Char :=
  outDir ++ str ("/.work/") ++ sanitizeSegment owner ++ str ("--")
    ++ sanitizeSegment repoName ++ str ("--") ++ sanitizeSegment branch

/-- The checkpoint directory contents: absolute path to cached text. -/
structure CacheFS where
  files : List Char → Option (List Char)

/-- `readCachedFile` (src/checkpoint.ts): resolves, then reads; `none` when
the file is absent.  Only the path-violation failure is modelled as error. -/
def readCachedFile (outDir : List Char) (fs : CacheFS)
    (owner repoName branch filePath : List Char) :
    Except (List Char) (Option (List Char)) :=
  (resolveWithin (workDirectoryFor outDir owner repoName branch) filePath).map
    fs.files

/-- `writeCachedFile` (src/checkpoint.ts): resolves, then persists. -/
def writeCachedFile (outDir : List Char)
    (owner repoName branch filePath : List Char) :
    Except (List Char) Unit :=
  (resolveWithin (workDirectoryFor outDir owner repoName branch) filePath).map
    (fun _ => ())

/-- `hasCachedFile` (src/checkpoint.ts). -/
def hasCachedFile (outDir : List Char) (fs : CacheFS)
    (owner repoName branch filePath : List Char) :
    Except (List Char) Bool :=
  (resolveWithin (workDirectoryFor outDir owner repoName branch) filePath).map
    (fun a => (fs.files a).isSome)

/-- `countCachedFiles` (src/checkpoint.ts): every listed path is resolved
(`Promise.all` rejects on the first violation), then the existing ones are
counted. -/
def countCachedFiles (outDir : List Char) (fs : CacheFS)
    (owner repoName branch : List Char) (filePaths : List (List Char)) :
    Except (List Char) Nat :=
  (filePaths.mapM
      (fun p => resolveWithin (workDirectoryFor outDir owner repoName branch) p)).map
    (fun as => (as.filter (fun a => (fs.files a).isSome)).length)

/-! ## Helper lemmas -/

theorem getLast?_cons_of_ne_nil {a : α} {l : List α} (h : l ≠ []) :
    (a :: l).getLast? = l.getLast? := by
  cases l with
  | nil => exact absurd rfl h
  | cons b t => exact List.getLast?_cons_cons

theorem chunkList_structure (m : Nat) (hm : 0 < m) :
    ∀ (k r : Nat) (l : List α), 0 < r → r ≤ m → l.length = k * m + r →
      (chunkList m l).length = k + 1 ∧
      (chunkList m l).getLast?.map List.length = some r := by
  intro k
  induction k with
  | zero =>
    intro r l hr hrm hl
    simp only [Nat.zero_mul, Nat.zero_add] at hl
    match l, hl with
    | [], hl => simp at hl; omega
    | a :: rest, hl =>
      have hrest : rest.length = r - 1 := by simp at hl; omega
      have hdrop : rest.drop (m - 1) = [] :=
        List.drop_eq_nil_of_le (by omega)
      rw [chunkList, hdrop, chunkList]
      constructor
      · rfl
      · simp [List.length_take]; omega
  | succ k ih =>
    intro r l hr hrm hl
    match l, hl with
    | [], hl => simp at hl; omega
    | a :: rest, hl =>
      have hrest : rest.length = k * m + r + (m - 1) := by
        simp at hl; ring_nf at hl ⊢; omega
      have hdroplen : (rest.drop (m - 1)).length = k * m + r := by
        simp [List.length_drop]; omega
      obtain ⟨ihlen, ihlast⟩ := ih r (rest.drop (m - 1)) hr hrm hdroplen
      have hne : chunkList m (rest.drop (m - 1)) ≠ [] := by
        intro hcontra
        rw [hcontra] at ihlen
        simp at ihlen
      rw [chunkList]
      refine ⟨by simp [ihlen], ?_⟩
      rw [getLast?_cons_of_ne_nil hne]
      exact ihlast

theorem isSep_lowerChar (c : Char) : isSep (lowerChar c) = isSep c := by
  unfold lowerChar
  split <;> rfl

theorem basenameOf_toLower (p : List Char) :
    basenameOf (toLowerL p) = toLowerL (basenameOf p) := by
  have hpred : ((fun c => !isSep c) ∘ lowerChar) = (fun c => !isSep c) := by
    funext c
    simp [Function.comp, isSep_lowerChar]
  unfold basenameOf toLowerL
  rw [← List.map_reverse, List.takeWhile_map, hpred, List.map_reverse]

theorem endsWith_lock_toLower (s : List Char)
    (h : endsWithL (str (".lock")) s = true) :
    endsWithL (str (".lock")) (toLowerL s) = true := by
  unfold endsWithL startsWithL at h ⊢
  rw [beq_iff_eq] at h ⊢
  unfold toLowerL
  rw [← List.map_reverse, ← List.map_take, h]
  decide

theorem dropWhile_idem (q : α → Bool) (l : List α) :
    (l.dropWhile q).dropWhile q = l.dropWhile q := by
  induction l with
  | nil => rfl
  | cons c rest ih =>
    by_cases h : q c = true
    · simp [List.dropWhile_cons, h, ih]
    · simp [List.dropWhile_cons, h]

theorem length_filter_not_add (p : α → Bool) (l : List α) :
    (l.filter p).length + (l.filter (fun a => !p a)).length = l.length := by
  induction l with
  | nil => rfl
  | cons a t ih =>
    by_cases h : p a = true
    · simp [List.filter_cons, h]
      omega
    · simp only [Bool.not_eq_true] at h
      simp [List.filter_cons, h]
      omega

theorem processItem_counter (se te : List (List Char)) (env : CollectEnv)
    (total p : Nat) (item : GitTreeItem) :
    (processItem se te env total p item).2.1 = p + 1
    ∧ (processItem se te env total p item).2.2.processed = p + 1
    ∧ (processItem se te env total p item).2.2.total = total
    ∧ (processItem se te env total p item).2.2.path = item.path := by
  unfold processItem
  cases env.cachedRead item.path with
  | none =>
    by_cases h1 : (env.getBlob item.sha).encoding == str ("base64")
    · by_cases h2 : looksTexty se te item.path
        (env.decodeBase64 (env.getBlob item.sha).content)
      · simp [h1, h2]
      · simp [h1, h2]
    · simp [h1]
  | some c => simp

theorem collectRun_spec (se te : List (List Char)) (env : CollectEnv)
    (total : Nat) :
    ∀ (l : List GitTreeItem) (p : Nat),
      (collectRun se te env total l p).1.length = l.length
      ∧ (collectRun se te env total l p).2.1 = p + l.length
      ∧ (collectRun se te env total l p).2.2.map (fun e => e.path)
          = l.map (fun it => it.path)
      ∧ (collectRun se te env total l p).2.2.map (fun e => e.processed)
          = List.range' (p + 1) l.length
      ∧ (collectRun se te env total l p).2.2.map (fun e => e.total)
          = List.replicate l.length total := by
  intro l
  induction l with
  | nil => intro p; simp [collectRun]
  | cons item rest ih =>
    intro p
    obtain ⟨hc, hp, htot, hpath⟩ := processItem_counter se te env total p item
    obtain ⟨ihlen, ihcnt, ihpath, ihproc, ihtot⟩ := ih (p + 1)
    rw [collectRun, hc]
    refine ⟨by simp [ihlen], ?_, ?_, ?_, ?_⟩
    · simp only [ihcnt, List.length_cons]
      omega
    · simp only [List.map_cons, ihpath, hpath]
    · simp only [List.map_cons, ihproc, hp, List.length_cons, List.range'_succ]
    · simp only [List.map_cons, ihtot, htot, List.length_cons,
        List.replicate_succ]

theorem reduceOutcomes_partition (os : List OutcomeItem) :
    (reduceOutcomes os).1.length + (reduceOutcomes os).2 = os.length := by
  induction os with
  | nil => rfl
  | cons o rest ih =>
    cases o with
    | included p c => simp [reduceOutcomes]; omega
    | cached p c => simp [reduceOutcomes]; omega
    | skipped p => simp [reduceOutcomes]; omega

theorem utf8Bytes_append (a b : List Char) :
    utf8Bytes (a ++ b) = utf8Bytes a ++ utf8Bytes b := by
  simp [utf8Bytes]

theorem entriesJoin_cons (idx : Nat) (c : List Char) (rest : List (List Char)) :
    entriesJoin idx (c :: rest) = objEntry idx c ++ entriesJoin (idx + 1) rest :=
  rfl

theorem entriesJoin_take_drop (objs : List (List Char)) :
    ∀ (idx i : Nat),
      entriesJoin idx objs
        = entriesJoin idx (objs.take i) ++ entriesJoin (idx + i) (objs.drop i) := by
  induction objs with
  | nil => intro idx i; simp [entriesJoin]
  | cons c rest ih =>
    intro idx i
    cases i with
    | zero => simp [entriesJoin]
    | succ i' =>
      simp only [List.take_succ_cons, List.drop_succ_cons, entriesJoin_cons]
      rw [ih (idx + 1) i', List.append_assoc]
      congr 3
      omega

theorem emitObjects_spec (objs : List (List Char)) :
    ∀ (idx : Nat) (pdf : List Char),
      (emitObjects idx pdf objs).1 = pdf ++ entriesJoin idx objs
      ∧ (emitObjects idx pdf objs).2.length = objs.length
      ∧ ∀ j, j < objs.length →
          (emitObjects idx pdf objs).2.getD j 0
            = (utf8Bytes (pdf ++ entriesJoin idx (objs.take j))).length := by
  induction objs with
  | nil => intro idx pdf; simp [emitObjects, entriesJoin]
  | cons c rest ih =>
    intro idx pdf
    obtain ⟨ih1, ih2, ih3⟩ := ih (idx + 1) (pdf ++ objEntry idx c)
    refine ⟨?_, ?_, ?_⟩
    · simp [emitObjects, entriesJoin_cons, ih1, List.append_assoc]
    · simp [emitObjects, ih2]
    · intro j hj
      cases j with
      | zero => simp [emitObjects, entriesJoin]
      | succ j' =>
        simp only [emitObjects, List.getD_cons_succ]
        rw [ih3 j' (by simpa using hj)]
        simp [entriesJoin_cons, List.append_assoc]

theorem getD_of_getElem? {l : List α} {i : Nat} {d : α} :
    l.getD i d = (l[i]?).getD d := List.getD_eq_getElem?_getD l i d

theorem getD_set_ne {l : List (Option ρ)} {i k : Nat} {a : Option ρ}
    (h : i ≠ k) : (l.set i a).getD k none = l.getD k none := by
  rw [getD_of_getElem?, getD_of_getElem?, List.getElem?_set_ne h]

theorem getD_eq_of_getD_default_ne {l : List RunnerState} {j : Nat}
    {r : RunnerState} (hne : r ≠ .done)
    (h : l.getD j .done = r) : l[j]? = some r := by
  rw [getD_of_getElem?] at h
  cases hval : l[j]? with
  | none => rw [hval] at h; exact absurd h.symm hne
  | some r2 => rw [hval] at h; simp at h; rw [h]

theorem jlt_of_getElem?_some {l : List RunnerState} {j : Nat} {r : RunnerState}
    (h : l[j]? = some r) : j < l.length := by
  by_contra hc
  rw [List.getElem?_eq_none (by omega)] at h
  exact absurd h (by simp)

theorem stepRunner_inv (items : List α) (f : α → ρ) (s : PoolState ρ) (j : Nat)
    (h : PoolInv items f s) : PoolInv items f (stepRunner items f s j) := by
  unfold stepRunner
  split
  case h_3 => exact h
  case h_1 hrj =>
    have hj? : s.runners[j]? = some RunnerState.idle :=
      getD_eq_of_getD_default_ne (by simp) hrj
    have hjlt : j < s.runners.length := jlt_of_getElem?_some hj?
    by_cases hc : s.cursor < items.length
    · simp only [hc, if_true]
      refine ⟨h.rlen, show s.cursor + 1 ≤ items.length by omega, ?_, ?_, ?_, ?_,
        h.resOk, ?_⟩
      · intro k hk
        have hk2 : s.cursor + 1 ≤ k := hk
        exact h.unclaimed k (by omega)
      · intro j2 k hj2
        by_cases hjj : j = j2
        · rw [← hjj, List.getElem?_set_self hjlt] at hj2
          have hk : k = s.cursor :=
            (RunnerState.working.inj (Option.some.inj hj2)).symm
          rw [hk]
          exact ⟨show s.cursor < s.cursor + 1 by omega,
            h.unclaimed s.cursor le_rfl⟩
        · rw [List.getElem?_set_ne hjj] at hj2
          obtain ⟨hlt, hnone⟩ := h.workingLt j2 k hj2
          exact ⟨show k < s.cursor + 1 by omega, hnone⟩
      · intro j1 j2 k hne h1 h2
        by_cases hj1 : j1 = j
        · subst hj1
          rw [List.getElem?_set_self hjlt] at h1
          have hk : s.cursor = k := RunnerState.working.inj (Option.some.inj h1)
          rw [List.getElem?_set_ne hne] at h2
          obtain ⟨hlt, -⟩ := h.workingLt j2 k h2
          omega
        · rw [List.getElem?_set_ne (fun e => hj1 e.symm)] at h1
          by_cases hj2 : j2 = j
          · subst hj2
            rw [List.getElem?_set_self hjlt] at h2
            have hk : s.cursor = k := RunnerState.working.inj (Option.some.inj h2)
            obtain ⟨hlt, -⟩ := h.workingLt j1 k h1
            omega
          · rw [List.getElem?_set_ne (fun e => hj2 e.symm)] at h2
            exact h.workingUniq j1 j2 k hne h1 h2
      · intro k hk hnone
        have hk' : k < s.cursor + 1 := hk
        by_cases hkc : k < s.cursor
        · obtain ⟨j2, hj2⟩ := h.claimed k hkc hnone
          have hj2ne : j ≠ j2 := by
            intro e
            rw [← e, hj?] at hj2
            exact absurd (Option.some.inj hj2) (by simp)
          exact ⟨j2, by rw [List.getElem?_set_ne hj2ne]; exact hj2⟩
        · have hk2 : k = s.cursor := by omega
          subst hk2
          exact ⟨j, by rw [List.getElem?_set_self hjlt]⟩
      · intro ⟨j2, hj2⟩
        by_cases hj2j : j = j2
        · rw [← hj2j, List.getElem?_set_self hjlt] at hj2
          exact absurd (Option.some.inj hj2) (by simp)
        · rw [List.getElem?_set_ne hj2j] at hj2
          have := h.doneCursor ⟨j2, hj2⟩
          show items.length ≤ s.cursor + 1
          omega
    · simp only [hc, if_false]
      refine ⟨h.rlen, h.cle, h.unclaimed, ?_, ?_, ?_, h.resOk, ?_⟩
      · intro j2 k hj2
        by_cases hjj : j = j2
        · rw [← hjj, List.getElem?_set_self hjlt] at hj2
          exact absurd (Option.some.inj hj2) (by simp)
        · rw [List.getElem?_set_ne hjj] at hj2
          exact h.workingLt j2 k hj2
      · intro j1 j2 k hne h1 h2
        by_cases hj1 : j1 = j
        · subst hj1
          rw [List.getElem?_set_self hjlt] at h1
          exact absurd (Option.some.inj h1) (by simp)
        · rw [List.getElem?_set_ne (fun e => hj1 e.symm)] at h1
          by_cases hj2 : j2 = j
          · subst hj2
            rw [List.getElem?_set_self hjlt] at h2
            exact absurd (Option.some.inj h2) (by simp)
          · rw [List.getElem?_set_ne (fun e => hj2 e.symm)] at h2
            exact h.workingUniq j1 j2 k hne h1 h2
      · intro k hk hnone
        obtain ⟨j2, hj2⟩ := h.claimed k hk hnone
        have hj2ne : j ≠ j2 := by
          intro e
          rw [← e, hj?] at hj2
          exact absurd (Option.some.inj hj2) (by simp)
        exact ⟨j2, by rw [List.getElem?_set_ne hj2ne]; exact hj2⟩
      · intro _
        show items.length ≤ s.cursor
        omega
  case h_2 k hrj =>
    have hj? : s.runners[j]? = some (RunnerState.working k) :=
      getD_eq_of_getD_default_ne (by simp) hrj
    have hjlt : j < s.runners.length := jlt_of_getElem?_some hj?
    obtain ⟨hklt, hknone⟩ := h.workingLt j k hj?
    have hkltn : k < items.length := by
      have := h.cle
      omega
    have hkres : k < s.results.length := by
      rw [h.rlen]
      exact hkltn
    have hit : items[k]? = some (items[k]) :=
      (List.getElem?_eq_some_getElem_iff _ _ hkltn).mpr trivial
    refine ⟨?_, h.cle, ?_, ?_, ?_, ?_, ?_, ?_⟩
    · show (s.results.set k (items[k]?.map f)).length = items.length
      simp [List.length_set, h.rlen]
    · intro k2 hk2
      have hk2' : s.cursor ≤ k2 := hk2
      have hne : k ≠ k2 := by omega
      show (s.results.set k (items[k]?.map f)).getD k2 none = none
      rw [getD_set_ne hne]
      exact h.unclaimed k2 hk2'
    · intro j2 k2 hj2
      have hj2ne : j2 ≠ j := by
        intro e
        rw [e, List.getElem?_set_self hjlt] at hj2
        exact absurd (Option.some.inj hj2) (by simp)
      rw [List.getElem?_set_ne (fun e => hj2ne e.symm)] at hj2
      obtain ⟨hlt2, hnone2⟩ := h.workingLt j2 k2 hj2
      have hkne : k ≠ k2 := by
        intro e
        subst e
        exact h.workingUniq j j2 k hj2ne.symm hj? hj2
      refine ⟨hlt2, ?_⟩
      show (s.results.set k (items[k]?.map f)).getD k2 none = none
      rw [getD_set_ne hkne]
      exact hnone2
    · intro j1 j2 k2 hne h1 h2
      by_cases hj1 : j1 = j
      · subst hj1
        rw [List.getElem?_set_self hjlt] at h1
        exact absurd (Option.some.inj h1) (by simp)
      · rw [List.getElem?_set_ne (fun e => hj1 e.symm)] at h1
        by_cases hj2 : j2 = j
        · subst hj2
          rw [List.getElem?_set_self hjlt] at h2
          exact absurd (Option.some.inj h2) (by simp)
        · rw [List.getElem?_set_ne (fun e => hj2 e.symm)] at h2
          exact h.workingUniq j1 j2 k2 hne h1 h2
    · intro k2 hk2 hnone
      have hnone' : (s.results.set k (items[k]?.map f)).getD k2 none = none :=
        hnone
      by_cases hkk : k2 = k
      · subst hkk
        rw [getD_of_getElem?, List.getElem?_set_self hkres, hit] at hnone'
        simp at hnone'
      · rw [getD_set_ne (fun e => hkk e.symm)] at hnone'
        obtain ⟨j2, hj2⟩ := h.claimed k2 hk2 hnone'
        have hj2ne : j ≠ j2 := by
          intro e
          rw [← e, hj?] at hj2
          have := RunnerState.working.inj (Option.some.inj hj2)
          exact hkk (by omega)
        exact ⟨j2, by rw [List.getElem?_set_ne hj2ne]; exact hj2⟩
    · intro k2 hne
      have hne' : (s.results.set k (items[k]?.map f)).getD k2 none ≠ none := hne
      show (s.results.set k (items[k]?.map f)).getD k2 none = items[k2]?.map f
      by_cases hkk : k2 = k
      · subst hkk
        rw [getD_of_getElem?, List.getElem?_set_self hkres]
        rfl
      · rw [getD_set_ne (fun e => hkk e.symm)] at hne' ⊢
        exact h.resOk k2 hne'
    · intro ⟨j2, hj2⟩
      have hj2ne : j2 ≠ j := by
        intro e
        rw [e, List.getElem?_set_self hjlt] at hj2
        exact absurd (Option.some.inj hj2) (by simp)
      rw [List.getElem?_set_ne (fun e => hj2ne e.symm)] at hj2
      exact h.doneCursor ⟨j2, hj2⟩

theorem initPool_inv (items : List α) (f : α → ρ) (rc : Nat) :
    PoolInv items f (initPool ρ items.length rc) := by
  refine ⟨by simp [initPool], by simp [initPool], ?_, ?_, ?_, ?_, ?_, ?_⟩
  · intro k _
    show (List.replicate items.length (none : Option ρ)).getD k none = none
    rw [getD_of_getElem?, List.getElem?_replicate]
    split <;> rfl
  · intro j k hj
    exfalso
    rw [show (initPool ρ items.length rc).runners = List.replicate rc .idle
      from rfl, List.getElem?_replicate] at hj
    split at hj
    · exact absurd (Option.some.inj hj) (by simp)
    · exact absurd hj (by simp)
  · intro j1 j2 k _ h1 _
    rw [show (initPool ρ items.length rc).runners = List.replicate rc .idle
      from rfl, List.getElem?_replicate] at h1
    split at h1
    · exact absurd (Option.some.inj h1) (by simp)
    · exact absurd h1 (by simp)
  · intro k hk _
    exact absurd hk (by simp [initPool])
  · intro k hne
    exfalso
    apply hne
    show (List.replicate items.length (none : Option ρ)).getD k none = none
    rw [getD_of_getElem?, List.getElem?_replicate]
    split <;> rfl
  · intro ⟨j, hj⟩
    rw [show (initPool ρ items.length rc).runners = List.replicate rc .idle
      from rfl, List.getElem?_replicate] at hj
    split at hj
    · exact absurd (Option.some.inj hj) (by simp)
    · exact absurd hj (by simp)

theorem foldl_stepRunner_inv (items : List α) (f : α → ρ) (sched : List Nat) :
    ∀ s : PoolState ρ, PoolInv items f s →
      PoolInv items f (sched.foldl (stepRunner items f) s) := by
  induction sched with
  | nil => intro s h; exact h
  | cons a t ih =>
    intro s h
    exact ih _ (stepRunner_inv items f s a h)

theorem stepRunner_runners_length (items : List α) (f : α → ρ)
    (s : PoolState ρ) (j : Nat) :
    (stepRunner items f s j).runners.length = s.runners.length := by
  unfold stepRunner
  split
  · split <;> simp [List.length_set]
  · simp [List.length_set]
  · rfl

theorem foldl_runners_length (items : List α) (f : α → ρ) (sched : List Nat) :
    ∀ s : PoolState ρ,
      (sched.foldl (stepRunner items f) s).runners.length = s.runners.length := by
  induction sched with
  | nil => intro s; rfl
  | cons a t ih =>
    intro s
    rw [List.foldl_cons, ih, stepRunner_runners_length]

theorem allDone_results (items : List α) (f : α → ρ) (s : PoolState ρ)
    (hinv : PoolInv items f s) (hlen : 0 < s.runners.length ∨ items.length = 0)
    (hdone : allDone s = true) :
    s.results = items.map (fun a => some (f a)) := by
  have hcur : items.length ≤ s.cursor := by
    rcases hlen with hpos | hzero
    · have h0 : s.runners[0]? = some (s.runners[0]) :=
        (List.getElem?_eq_some_getElem_iff _ _ hpos).mpr trivial
      have hmem : s.runners[0] ∈ s.runners := List.getElem?_mem h0
      have hall := List.all_eq_true.mp hdone _ hmem
      have hdone0 : s.runners[0] = RunnerState.done := by
        simpa using hall
      exact hinv.doneCursor ⟨0, by rw [h0, hdone0]⟩
    · omega
  apply List.ext_getElem?_iff.mpr
  intro i
  by_cases hi : i < items.length
  · have hir : i < s.results.length := by rw [hinv.rlen]; exact hi
    have hslot : s.results.getD i none ≠ none := by
      intro hnone
      obtain ⟨j, hj⟩ := hinv.claimed i (by omega) hnone
      have hmem := List.getElem?_mem hj
      have hall := List.all_eq_true.mp hdone _ hmem
      simp at hall
    have hval := hinv.resOk i hslot
    have h1 : s.results[i]? = some (s.results[i]) :=
      (List.getElem?_eq_some_getElem_iff _ _ hir).mpr trivial
    have h2 : s.results.getD i none = s.results[i] := by
      rw [getD_of_getElem?, h1]
      rfl
    have hit : items[i]? = some (items[i]) :=
      (List.getElem?_eq_some_getElem_iff _ _ hi).mpr trivial
    rw [h1, List.getElem?_map, hit]
    rw [h2, hit] at hval
    rw [hval]
    rfl
  · rw [List.getElem?_eq_none (by rw [hinv.rlen]; omega),
      List.getElem?_eq_none (by simp; omega)]

/-! ## Claim theorems -/

/-- C7: splitting 0 lines produces exactly 1 page containing a single empty
line, and splitting `k * linesPerPage + r` lines (`0 < r < linesPerPage`)
produces `k + 1` pages whose last page has exactly `r` lines, where
`linesPerPage = max 1 ((pageHeight - topMargin - bottomMargin) / linePitch)`. -/
theorem c7_page_splitting :
    (splitIntoPages [] = [[[]]]
      ∧ maxLinesPerPage
          = max 1 ((PAGE_HEIGHT - TOP_MARGIN - BOTTOM_MARGIN) / LINE_HEIGHT))
    ∧ ∀ (lines : List (List Char)) (k r : Nat),
        0 < r → r < maxLinesPerPage →
        lines.length = k * maxLinesPerPage + r →
        (splitIntoPages lines).length = k + 1
          ∧ (splitIntoPages lines).getLast?.map List.length = some r := by
  refine ⟨⟨by simp [splitIntoPages, chunkList], rfl⟩, ?_⟩
  intro lines k r hr hrm hl
  have hm : 0 < maxLinesPerPage := by decide
  match lines, hl with
  | [], hl => simp at hl; omega
  | a :: rest, hl =>
    have hch := chunkList_structure maxLinesPerPage hm k r (a :: rest) hr
      (Nat.le_of_lt hrm) hl
    have hne : ¬(chunkList maxLinesPerPage (a :: rest)).isEmpty := by
      rw [chunkList]
      simp
    simpa [splitIntoPages, hne] using hch

/-- C7 witness: 59 lines make two pages, the last carrying one line. -/
theorem c7_page_splitting_witness :
    (splitIntoPages (List.replicate 59 [])).length = 2
      ∧ (splitIntoPages (List.replicate 59 [])).getLast?.map List.length = some 1 :=
  c7_page_splitting.2 (List.replicate 59 []) 1 1 (by decide) (by decide) (by decide)

/-- C8: classification is a deterministic total function of the path and
the sample bytes — every pair yields exactly one of text/skip, identical
inputs yield identical outputs — and a file whose basename is `yarn.lock`
or `pnpm-lock.yaml` or ends in `.lock` classifies as skip for every byte
content (and any extension sets). -/
theorem c8_classify :
    (∀ (se te : List (List Char)) (p p2 : List Char) (b b2 : List Nat),
        p = p2 → b = b2 → classify se te p b = classify se te p2 b2)
    ∧ (∀ (se te : List (List Char)) (p : List Char) (b : List Nat),
        classify se te p b = .text ∨ classify se te p b = .skip)
    ∧ (∀ (se te : List (List Char)) (p : List Char) (b : List Nat),
        (basenameOf p = str ("yarn.lock") ∨ basenameOf p = str ("pnpm-lock.yaml")
          ∨ endsWithL (str (".lock")) (basenameOf p) = true) →
        classify se te p b = .skip) := by
  refine ⟨fun se te p p2 b b2 hp hb => by rw [hp, hb], ?_, ?_⟩
  · intro se te p b
    unfold classify
    split
    · exact Or.inl rfl
    · exact Or.inr rfl
  · intro se te p b hlock
    have hlf : isLockFile p = true := by
      unfold isLockFile
      rw [basenameOf_toLower]
      rcases hlock with h | h | h
      · rw [h]; decide
      · rw [h]; decide
      · have := endsWith_lock_toLower (basenameOf p) h
        simp [this]
    have hskip : hasSkippedExtension se p = true := by
      unfold hasSkippedExtension
      simp [hlf]
    have htexty : looksTexty se te p b = false := by
      unfold looksTexty
      simp [hskip]
    unfold classify
    simp [htexty]

/-- C8 witness: `a/yarn.lock` with binary-looking bytes is skipped. -/
theorem c8_classify_witness :
    classify [] [] (str ("a/yarn.lock")) [0, 200] = Classification.skip :=
  c8_classify.2.2 [] [] (str ("a/yarn.lock")) [0, 200] (Or.inl (by decide))

/-- C10: a blob tree entry with no numeric size is never counted in
`skippedLarge` and lands in `eligibleBlobs` whenever its path passes the
extension/lock filter; `skippedLarge` counts exactly the extension-passing
blobs whose numeric size strictly exceeds the cap. -/
theorem c10_size_filter :
    ∀ (se : List (List Char)) (cap : Nat)
      (owner repo repoName branch : List Char)
      (tree : List GitTreeItem) (truncated : Bool),
      (∀ b : GitTreeItem, b ∈ tree → b.type = str ("blob") →
        hasSkippedExtension se b.path = false → b.size = none →
        b ∈ (loadRepositoryOutline se cap owner repo repoName branch tree
              truncated).eligibleBlobs)
      ∧ (loadRepositoryOutline se cap owner repo repoName branch tree
            truncated).skippedLarge
          = (((loadRepositoryOutline se cap owner repo repoName branch tree
                  truncated).blobs.filter
                (fun b => !hasSkippedExtension se b.path)).filter
              (fun b => match b.size with
                | some s => decide (cap < s)
                | none => false)).length := by
  intro se cap owner repo repoName branch tree truncated
  constructor
  · intro b hb htype hext hsize
    simp only [loadRepositoryOutline]
    refine List.mem_filter.mpr ⟨List.mem_filter.mpr ⟨List.mem_filter.mpr
      ⟨hb, ?_⟩, ?_⟩, ?_⟩
    · simp [htype]
    · simp [hext]
    · simp [hsize]
  · simp only [loadRepositoryOutline]
    have hpart := length_filter_not_add
      (fun b : GitTreeItem => match b.size with
        | none => true
        | some s => decide (s ≤ cap))
      ((tree.filter (fun entry => entry.type == str ("blob"))).filter
        (fun blob => !hasSkippedExtension se blob.path))
    have hcongr :
        ((tree.filter (fun entry => entry.type == str ("blob"))).filter
            (fun blob => !hasSkippedExtension se blob.path)).filter
          (fun b => !(match b.size with
            | none => true
            | some s => decide (s ≤ cap)))
        = ((tree.filter (fun entry => entry.type == str ("blob"))).filter
            (fun blob => !hasSkippedExtension se blob.path)).filter
          (fun b => match b.size with
            | some s => decide (cap < s)
            | none => false) := by
      apply List.filter_congr
      intro b _
      cases b.size with
      | none => rfl
      | some s =>
        by_cases h : s ≤ cap
        · simp [h, show ¬(cap < s) by omega]
        · simp [h, show cap < s by omega]
    rw [← hcongr]
    omega

/-- C10 witness: a sizeless blob with an unfiltered path is eligible. -/
theorem c10_size_filter_witness :
    (⟨str ("a"), str ("100644"), str ("blob"), str ("s"), none, str ("u")⟩
        : GitTreeItem)
      ∈ (loadRepositoryOutline [] 0 [] [] [] []
          [⟨str ("a"), str ("100644"), str ("blob"), str ("s"), none, str ("u")⟩]
          false).eligibleBlobs :=
  (c10_size_filter [] 0 [] [] [] []
      [⟨str ("a"), str ("100644"), str ("blob"), str ("s"), none, str ("u")⟩]
      false).1
    ⟨str ("a"), str ("100644"), str ("blob"), str ("s"), none, str ("u")⟩
    (by simp) rfl (by decide) rfl

/-- C2: whenever `truncatedTree` is false the summary satisfies
`included + skippedBinary + skippedLarge + skippedExtension = total`,
for any fetched blob list and any collector environment. -/
theorem c2_summary_partition :
    ∀ (se te : List (List Char)) (cap : Nat) (env : CollectEnv)
      (owner repo repoName branch : List Char)
      (tree : List GitTreeItem) (truncated : Bool),
      (exportSummaryOf se te env
          (loadRepositoryOutline se cap owner repo repoName branch tree
            truncated)).truncatedTree = false →
      (exportSummaryOf se te env
          (loadRepositoryOutline se cap owner repo repoName branch tree
            truncated)).included
        + (exportSummaryOf se te env
            (loadRepositoryOutline se cap owner repo repoName branch tree
              truncated)).skippedBinary
        + (exportSummaryOf se te env
            (loadRepositoryOutline se cap owner repo repoName branch tree
              truncated)).skippedLarge
        + (exportSummaryOf se te env
            (loadRepositoryOutline se cap owner repo repoName branch tree
              truncated)).skippedExtension
        = (exportSummaryOf se te env
            (loadRepositoryOutline se cap owner repo repoName branch tree
              truncated)).total := by
  intro se te cap env owner repo repoName branch tree truncated _
  simp only [exportSummaryOf, collectTextFiles, loadRepositoryOutline]
  have hrun := collectRun_spec se te env
    ((((tree.filter (fun entry => entry.type == str ("blob"))).filter
        (fun blob => !hasSkippedExtension se blob.path)).filter
        (fun blob => match blob.size with
          | none => true
          | some s => decide (s ≤ cap))).mergeSort
      (fun a b => charListLe a.path b.path)).length
    ((((tree.filter (fun entry => entry.type == str ("blob"))).filter
        (fun blob => !hasSkippedExtension se blob.path)).filter
        (fun blob => match blob.size with
          | none => true
          | some s => decide (s ≤ cap))).mergeSort
      (fun a b => charListLe a.path b.path))
    0
  have hred := reduceOutcomes_partition
    (collectRun se te env
      ((((tree.filter (fun entry => entry.type == str ("blob"))).filter
          (fun blob => !hasSkippedExtension se blob.path)).filter
          (fun blob => match blob.size with
            | none => true
            | some s => decide (s ≤ cap))).mergeSort
        (fun a b => charListLe a.path b.path)).length
      ((((tree.filter (fun entry => entry.type == str ("blob"))).filter
          (fun blob => !hasSkippedExtension se blob.path)).filter
          (fun blob => match blob.size with
            | none => true
            | some s => decide (s ≤ cap))).mergeSort
        (fun a b => charListLe a.path b.path))
      0).1
  have hms :
      ((((tree.filter (fun entry => entry.type == str ("blob"))).filter
          (fun blob => !hasSkippedExtension se blob.path)).filter
          (fun blob => match blob.size with
            | none => true
            | some s => decide (s ≤ cap))).mergeSort
        (fun a b => charListLe a.path b.path)).length
      = (((tree.filter (fun entry => entry.type == str ("blob"))).filter
          (fun blob => !hasSkippedExtension se blob.path)).filter
          (fun blob => match blob.size with
            | none => true
            | some s => decide (s ≤ cap))).length :=
    List.length_mergeSort _
  have hle1 := List.length_filter_le
    (fun blob : GitTreeItem => match blob.size with
      | none => true
      | some s => decide (s ≤ cap))
    ((tree.filter (fun entry => entry.type == str ("blob"))).filter
      (fun blob => !hasSkippedExtension se blob.path))
  have hle2 := List.length_filter_le
    (fun blob : GitTreeItem => !hasSkippedExtension se blob.path)
    (tree.filter (fun entry => entry.type == str ("blob")))
  omega

/-- C2 witness: the empty tree gives the partition `0 + 0 + 0 + 0 = 0`. -/
theorem c2_summary_partition_witness :
    (exportSummaryOf [] [] ⟨fun _ => none, fun _ => ⟨[], [], 0⟩,
        fun _ => [], fun _ => []⟩
        (loadRepositoryOutline [] 0 [] [] [] [] [] false)).included
      + (exportSummaryOf [] [] ⟨fun _ => none, fun _ => ⟨[], [], 0⟩,
          fun _ => [], fun _ => []⟩
          (loadRepositoryOutline [] 0 [] [] [] [] [] false)).skippedBinary
      + (exportSummaryOf [] [] ⟨fun _ => none, fun _ => ⟨[], [], 0⟩,
          fun _ => [], fun _ => []⟩
          (loadRepositoryOutline [] 0 [] [] [] [] [] false)).skippedLarge
      + (exportSummaryOf [] [] ⟨fun _ => none, fun _ => ⟨[], [], 0⟩,
          fun _ => [], fun _ => []⟩
          (loadRepositoryOutline [] 0 [] [] [] [] [] false)).skippedExtension
      = (exportSummaryOf [] [] ⟨fun _ => none, fun _ => ⟨[], [], 0⟩,
          fun _ => [], fun _ => []⟩
          (loadRepositoryOutline [] 0 [] [] [] [] [] false)).total :=
  c2_summary_partition [] [] 0 ⟨fun _ => none, fun _ => ⟨[], [], 0⟩,
    fun _ => [], fun _ => []⟩ [] [] [] [] [] false rfl

/-- C1: for every page list and every object index, the byte offset the
cross-reference table records for that object equals the byte position in
the final emitted stream at which the object's `<id> 0 obj` entry starts:
seeking to the recorded offset reads exactly the `<id> 0 obj` tag. -/
theorem c1_xref_offsets :
    ∀ (pages : List (List (List Char))) (i : Nat),
      i < (pdfObjects pages).length →
      ((utf8Bytes (createPdfString pages)).drop
          ((pdfOffsets pages).getD i 0)).take (utf8Bytes (objTag i)).length
        = utf8Bytes (objTag i) := by
  intro pages i hi
  obtain ⟨h1, h2, h3⟩ := emitObjects_spec (pdfObjects pages) 0 pdfHeader
  have hsplit :
      (emitObjects 0 pdfHeader (pdfObjects pages)).1
          ++ xrefSection (pdfObjects pages).length
              (emitObjects 0 pdfHeader (pdfObjects pages)).2
              (catalogObjId pages.length)
              (utf8Bytes (emitObjects 0 pdfHeader (pdfObjects pages)).1).length
        = (pdfHeader ++ entriesJoin 0 ((pdfObjects pages).take i))
            ++ (entriesJoin (0 + i) ((pdfObjects pages).drop i)
              ++ xrefSection (pdfObjects pages).length
                  (emitObjects 0 pdfHeader (pdfObjects pages)).2
                  (catalogObjId pages.length)
                  (utf8Bytes (emitObjects 0 pdfHeader (pdfObjects pages)).1).length) := by
    rw [h1, entriesJoin_take_drop (pdfObjects pages) 0 i, ← List.append_assoc,
      ← List.append_assoc]
  unfold createPdfString pdfOffsets
  rw [hsplit, utf8Bytes_append, h3 i hi, List.drop_left]
  have hdropi : (pdfObjects pages).drop i
      = (pdfObjects pages)[i] :: (pdfObjects pages).drop (i + 1) :=
    List.drop_eq_getElem_cons hi
  rw [Nat.zero_add, hdropi, entriesJoin_cons]
  have hobj : objEntry i (pdfObjects pages)[i]
      = objTag i ++ (str ("\n") ++ ((pdfObjects pages)[i] ++ str ("\nendobj\n"))) := by
    unfold objEntry objTag
    have hs : str (" 0 obj\n") = str (" 0 obj") ++ str ("\n") := rfl
    rw [hs]
    simp [List.append_assoc]
  rw [hobj, List.append_assoc, List.append_assoc, utf8Bytes_append,
    List.take_left]

/-- C1 witness: the one-page document of a single empty line; seeking to the
first recorded offset reads `1 0 obj`. -/
theorem c1_xref_offsets_witness :
    ((utf8Bytes (createPdfString [[[]]])).drop
        ((pdfOffsets [[[]]]).getD 0 0)).take (utf8Bytes (objTag 0)).length
      = utf8Bytes (objTag 0) :=
  c1_xref_offsets [[[]]] 0 (by decide)

/-- C3: under any scheduler interleaving, when the pool runs to completion
the result array equals the sequential map of the pure transform over the
items, positionally (`results[i]` holds `f items[i]`); and a limit below 1
fails fast with an error instead of producing results. -/
theorem c3_map_with_concurrency :
    ∀ (items : List α) (limit : Nat) (f : α → ρ) (sched : List Nat),
      (limit < 1 →
        mapWithConcurrency items limit f sched
          = .error (str ("Concurrency limit must be at least 1")))
      ∧ (1 ≤ limit → allDone (runPool items limit f sched) = true →
        mapWithConcurrency items limit f sched
          = .ok (items.map (fun a => some (f a)))) := by
  intro items limit f sched
  constructor
  · intro hl
    simp [mapWithConcurrency, hl]
  · intro hlim hdone
    have hinv : PoolInv items f (runPool items limit f sched) := by
      unfold runPool
      exact foldl_stepRunner_inv items f sched _ (initPool_inv items f _)
    have hlen : (runPool items limit f sched).runners.length
        = min limit items.length := by
      unfold runPool
      rw [foldl_runners_length]
      simp [initPool]
    have hres := allDone_results items f (runPool items limit f sched) hinv
      ?_ hdone
    · have hnl : ¬ limit < 1 := by omega
      simp only [mapWithConcurrency, hnl, if_false, hres]
    · by_cases hn : items.length = 0
      · right
        exact hn
      · left
        rw [hlen]
        omega

/-- C3 witness: three items, limit 2, an interleaving schedule. -/
theorem c3_map_with_concurrency_witness :
    mapWithConcurrency [10, 20, 30] 2 (fun n => n + 1) [0, 1, 0, 0, 1, 1, 0, 0]
      = .ok [some 11, some 21, some 31] := by
  have h := (c3_map_with_concurrency [10, 20, 30] 2 (fun n => n + 1)
    [0, 1, 0, 0, 1, 1, 0, 0]).2 (by decide) (by decide)
  simpa using h

/-- C4 counterexample: the absolute path `/etc/passwd` — which would
resolve outside the work root — is silently clamped into the root and read
succeeds instead of failing with a path violation; and a `../` path landing
in a sibling directory whose name extends the work root's name resolves
`ok` outside the root. -/
theorem c4_path_escape_counterexample :
    readCachedFile (str ("/out")) ⟨fun _ => none⟩ (str ("o")) (str ("r"))
        (str ("b")) (str ("/etc/passwd")) = Except.ok none
    ∧ resolveWithin (str ("/out/.work/o--r--b")) (str ("../o--r--b-x/f"))
        = Except.ok (str ("/out/.work/o--r--b-x/f")) := by
  constructor
  · rfl
  · rfl

/-- C4 amended: path arguments are first stripped of leading slashes, so an
absolute-path argument is silently clamped into the work root rather than
failing; after that, each Checkpoint Store operation (read, write, exists,
count) fails with the path-violation error exactly when the resolved path
does not extend `resolve(workRoot)` as a string prefix, and any path an
operation accepts resolves to a path extending that prefix — so `../`
traversal above the root fails, except when it lands in a sibling whose
name extends the root's name as a string prefix. -/
theorem c4_path_escape_amended :
    ∀ (outDir owner repoName branch p : List Char) (fs : CacheFS)
      (ps : List (List Char)),
      ((resolveWithin (workDirectoryFor outDir owner repoName branch) p).toOption
        = (resolveWithin (workDirectoryFor outDir owner repoName branch)
            (stripLeadSlashes p)).toOption)
      ∧ (∀ q, resolveWithin (workDirectoryFor outDir owner repoName branch) p
            = .ok q →
          startsWithL
            (normalizeResolve (workDirectoryFor outDir owner repoName branch) [])
            q = true)
      ∧ (startsWithL
            (normalizeResolve (workDirectoryFor outDir owner repoName branch) [])
            (normalizeResolve (workDirectoryFor outDir owner repoName branch)
              (stripLeadSlashes p)) = false →
          readCachedFile outDir fs owner repoName branch p
              = .error (pathViolation p)
          ∧ writeCachedFile outDir owner repoName branch p
              = .error (pathViolation p)
          ∧ hasCachedFile outDir fs owner repoName branch p
              = .error (pathViolation p)
          ∧ countCachedFiles outDir fs owner repoName branch (p :: ps)
              = .error (pathViolation p))
      ∧ (startsWithL
            (normalizeResolve (workDirectoryFor outDir owner repoName branch) [])
            (normalizeResolve (workDirectoryFor outDir owner repoName branch)
              (stripLeadSlashes p)) = true →
          readCachedFile outDir fs owner repoName branch p
              = .ok (fs.files
                  (normalizeResolve (workDirectoryFor outDir owner repoName branch)
                    (stripLeadSlashes p)))
          ∧ writeCachedFile outDir owner repoName branch p = .ok ()) := by
  intro outDir owner repoName branch p fs ps
  have hstrip : stripLeadSlashes (stripLeadSlashes p) = stripLeadSlashes p :=
    dropWhile_idem _ p
  by_cases h : startsWithL
      (normalizeResolve (workDirectoryFor outDir owner repoName branch) [])
      (normalizeResolve (workDirectoryFor outDir owner repoName branch)
        (stripLeadSlashes p)) = true
  · refine ⟨?_, ?_, fun hfalse => absurd h (by simp [hfalse]), fun _ => ?_⟩
    · simp only [resolveWithin, hstrip, h, if_true]
    · intro q hq
      simp only [resolveWithin, h, if_true, Except.ok.injEq] at hq
      rw [← hq]
      exact h
    · constructor
      · simp only [readCachedFile, resolveWithin, h, if_true, Except.map]
      · simp only [writeCachedFile, resolveWithin, h, if_true, Except.map]
  · rw [Bool.not_eq_true] at h
    refine ⟨?_, ?_, fun _ => ?_, fun htrue => absurd htrue (by simp [h])⟩
    · simp only [resolveWithin, hstrip, h, Bool.false_eq_true, if_false]
      rfl
    · intro q hq
      simp only [resolveWithin, h, Bool.false_eq_true, if_false] at hq
      exact absurd hq (by simp)
    · refine ⟨?_, ?_, ?_, ?_⟩
      · simp only [readCachedFile, resolveWithin, h, Bool.false_eq_true,
          if_false, Except.map]
      · simp only [writeCachedFile, resolveWithin, h, Bool.false_eq_true,
          if_false, Except.map]
      · simp only [hasCachedFile, resolveWithin, h, Bool.false_eq_true,
          if_false, Except.map]
      · simp only [countCachedFiles, List.mapM_cons, resolveWithin, h,
          Bool.false_eq_true, if_false, Except.map, Except.bind]
        rfl

/-- C4 witness: `../../etc/passwd` fails every Checkpoint Store operation
with the path-violation error. -/
theorem c4_path_escape_amended_witness :
    readCachedFile (str ("/out")) ⟨fun _ => none⟩ (str ("o")) (str ("r"))
        (str ("b")) (str ("../../etc/passwd"))
      = Except.error (pathViolation (str ("../../etc/passwd")))
    ∧ writeCachedFile (str ("/out")) (str ("o")) (str ("r")) (str ("b"))
        (str ("../../etc/passwd"))
      = Except.error (pathViolation (str ("../../etc/passwd")))
    ∧ hasCachedFile (str ("/out")) ⟨fun _ => none⟩ (str ("o")) (str ("r"))
        (str ("b")) (str ("../../etc/passwd"))
      = Except.error (pathViolation (str ("../../etc/passwd")))
    ∧ countCachedFiles (str ("/out")) ⟨fun _ => none⟩ (str ("o")) (str ("r"))
        (str ("b")) [str ("../../etc/passwd")]
      = Except.error (pathViolation (str ("../../etc/passwd"))) :=
  (c4_path_escape_amended (str ("/out")) (str ("o")) (str ("r")) (str ("b"))
    (str ("../../etc/passwd")) ⟨fun _ => none⟩ []).2.2.1 rfl

/-- C5: during collection every eligible blob yields exactly one progress
event (in item order), the shared counter is bumped exactly once per item
(the emitted `processed` values are `1..n`), every event carries
`total = n`, and the final counter equals the eligible count `n`. -/
theorem c5_progress_events :
    ∀ (se te : List (List Char)) (env : CollectEnv) (ol : RepositoryOutline),
      (collectTextFiles se te env ol).events.map (fun e => e.path)
          = (ol.eligibleBlobs.mergeSort
              (fun a b => charListLe a.path b.path)).map (fun it => it.path)
      ∧ (collectTextFiles se te env ol).events.map (fun e => e.processed)
          = List.range' 1 ol.eligibleBlobs.length
      ∧ (collectTextFiles se te env ol).events.map (fun e => e.total)
          = List.replicate ol.eligibleBlobs.length ol.eligibleBlobs.length
      ∧ (collectTextFiles se te env ol).finalProcessed
          = ol.eligibleBlobs.length := by
  intro se te env ol
  have hms :
      (ol.eligibleBlobs.mergeSort (fun a b => charListLe a.path b.path)).length
        = ol.eligibleBlobs.length :=
    List.length_mergeSort _
  obtain ⟨-, hcnt, hpath, hproc, htot⟩ := collectRun_spec se te env
    (ol.eligibleBlobs.mergeSort (fun a b => charListLe a.path b.path)).length
    (ol.eligibleBlobs.mergeSort (fun a b => charListLe a.path b.path)) 0
  simp only [collectTextFiles]
  rw [← hms]
  exact ⟨hpath, by simpa using hproc, htot, by simpa using hcnt⟩

/-- C6 counterexample: (a) after the single report `(render, 0, 0)` followed
by `complete`, the final published event is `(0, 1)` with processed ≠ total;
(b) a second report overwrites the stored render progress 5 with 2, so the
stored processed value is not non-decreasing. -/
theorem c6_progress_counterexample :
    ((finalReporter [⟨.render, 0, 0⟩]).updates.getLast? = some (0, 1)
      ∧ (0 : Int) ≠ 1)
    ∧ ((runReports [⟨.render, 5, 10⟩]).render.processed = 5
      ∧ (runReports [⟨.render, 5, 10⟩, ⟨.render, 2, 10⟩]).render.processed = 2
      ∧ (2 : Int) < 5) := by
  decide

theorem reportR_started (s : ReporterState) (e : PdfStageReport) :
    (reportR s e).started = true := by
  by_cases h : s.started
  · cases he : e.stage <;> simp [reportR, h, updateStage, publish, he]
  · cases he : e.stage <;>
      simp [reportR, h, updateStage, publish, initialiseR, he]

theorem started_foldl (evs : List PdfStageReport) :
    ∀ s : ReporterState, evs ≠ [] → (evs.foldl reportR s).started = true := by
  induction evs with
  | nil => intro s h; exact absurd rfl h
  | cons e rest ih =>
    intro s _
    cases rest with
    | nil => simpa using reportR_started s e
    | cons e2 t => exact ih (reportR s e) (by simp)

theorem reporter_inv (evs : List PdfStageReport) :
    ∀ s : ReporterState,
      (0 ≤ s.render.processed ∧ s.render.processed ≤ s.render.total
        ∧ 0 ≤ s.write.processed ∧ s.write.processed ≤ s.write.total) →
      (0 ≤ (evs.foldl reportR s).render.processed
        ∧ (evs.foldl reportR s).render.processed
            ≤ (evs.foldl reportR s).render.total
        ∧ 0 ≤ (evs.foldl reportR s).write.processed
        ∧ (evs.foldl reportR s).write.processed
            ≤ (evs.foldl reportR s).write.total) := by
  induction evs with
  | nil => intro s h; simpa using h
  | cons e rest ih =>
    intro s h
    rw [List.foldl_cons]
    apply ih
    by_cases hs : s.started
    · cases he : e.stage <;>
        simp [reportR, hs, updateStage, publish, he] <;> omega
    · cases he : e.stage <;>
        simp [reportR, hs, updateStage, publish, initialiseR, he] <;> omega

/-- C6 amended: for any nonempty sequence of report calls followed by
`complete`, provided the two stored stage totals sum to at least 1, the
final event published to the sink has processed equal to total (both equal
the sum of the stage totals); on every report the stored stage state is in
`[0, total]` (clamped), but it is overwritten with the report's clamped
value, so the stored processed value may decrease between reports. -/
theorem c6_progress_amended :
    (∀ evs : List PdfStageReport, evs ≠ [] →
      1 ≤ (runReports evs).render.total + (runReports evs).write.total →
      (finalReporter evs).updates.getLast?
        = some ((runReports evs).render.total + (runReports evs).write.total,
            (runReports evs).render.total + (runReports evs).write.total))
    ∧ (∀ evs : List PdfStageReport,
        0 ≤ (runReports evs).render.processed
        ∧ (runReports evs).render.processed ≤ (runReports evs).render.total
        ∧ 0 ≤ (runReports evs).write.processed
        ∧ (runReports evs).write.processed ≤ (runReports evs).write.total)
    ∧ (∀ (evs : List PdfStageReport) (e : PdfStageReport),
        (e.stage = .render →
          (runReports (evs ++ [e])).render.processed
            = min (max e.processed 0) (max e.total 0))
        ∧ (e.stage = .write →
          (runReports (evs ++ [e])).write.processed
            = min (max e.processed 0) (max e.total 0))) := by
  refine ⟨?_, ?_, ?_⟩
  · intro evs hne htot
    have hst : (runReports evs).started = true :=
      started_foldl evs initialReporter hne
    unfold finalReporter completeR
    rw [hst]
    simp only [Bool.not_true, Bool.false_eq_true, if_false, publish,
      aggregateProcessed, aggregateTotal, List.getLast?_concat]
    congr 2
    omega
  · intro evs
    exact reporter_inv evs initialReporter (by simp [initialReporter])
  · intro evs e
    constructor
    · intro hstage
      unfold runReports
      rw [List.foldl_append, List.foldl_cons, List.foldl_nil]
      by_cases hs : (evs.foldl reportR initialReporter).started
      · simp [reportR, hs, updateStage, publish, hstage]
      · simp [reportR, hs, updateStage, publish, initialiseR, hstage]
    · intro hstage
      unfold runReports
      rw [List.foldl_append, List.foldl_cons, List.foldl_nil]
      by_cases hs : (evs.foldl reportR initialReporter).started
      · simp [reportR, hs, updateStage, publish, hstage]
      · simp [reportR, hs, updateStage, publish, initialiseR, hstage]

/-- C6 witness: one report `(render, 1, 1)` then `complete` publishes a
final `1/1` event. -/
theorem c6_progress_amended_witness :
    (finalReporter [⟨PdfStage.render, 1, 1⟩]).updates.getLast?
      = some ((runReports [⟨PdfStage.render, 1, 1⟩]).render.total
            + (runReports [⟨PdfStage.render, 1, 1⟩]).write.total,
          (runReports [⟨PdfStage.render, 1, 1⟩]).render.total
            + (runReports [⟨PdfStage.render, 1, 1⟩]).write.total) :=
  c6_progress_amended.1 [⟨PdfStage.render, 1, 1⟩] (by simp) (by decide)

/-- C9 counterexample: for content already ending in two newlines the
"normalized" content still ends in two newlines, refuting "ends with exactly
one trailing newline ... for every possible file content". -/
theorem c9_framing_counterexample :
    ensureTrailingNewline (str ("x\n\n")) = str ("x\n\n")
      ∧ endsWithOneNewline (ensureTrailingNewline (str ("x\n\n"))) = false := by
  decide

/-- C9 amended: every file section is an 80-char `=` delimiter line, a
`FILE: <path>` line, another delimiter line, then the content normalized to
end with at least one trailing newline — one newline is appended exactly
when the content does not already end with one; content already ending in
newline(s) is left unchanged. -/
theorem c9_framing_amended :
    (∀ (files : List (List Char × List Char)),
      exportFileSections files
        = (files.map (fun f =>
            str ("\n") ++ sepLine ++ str ("\n") ++ str ("FILE: ") ++ f.1
              ++ str ("\n") ++ sepLine ++ str ("\n")
              ++ ensureTrailingNewline f.2)).flatten)
    ∧ (sepLine.length = 80 ∧ sepLine.all (fun c => c == '=') = true)
    ∧ ∀ (content : List Char),
        (ensureTrailingNewline content).getLast? = some '\n'
        ∧ (content.getLast? = some '\n' → ensureTrailingNewline content = content)
        ∧ (content.getLast? ≠ some '\n' →
            ensureTrailingNewline content = content ++ str ("\n")) := by
  refine ⟨?_, ⟨by decide, by decide⟩, ?_⟩
  · intro files
    simp [exportFileSections, fileSection, headerFor]
  · intro content
    by_cases h : content.getLast? = some '\n'
    · refine ⟨?_, fun _ => ?_, fun hc => absurd h hc⟩
      · simp [ensureTrailingNewline, h]
      · simp [ensureTrailingNewline, h]
    · refine ⟨?_, fun hc => absurd hc h, fun _ => ?_⟩
      · simp [ensureTrailingNewline, h, List.getLast?_concat]
        decide
      · simp [ensureTrailingNewline, h]

/-- C9 witness: a content without trailing newline gets exactly one added. -/
theorem c9_framing_amended_witness :
    (ensureTrailingNewline (str ("b"))).getLast? = some '\n'
      ∧ ensureTrailingNewline (str ("b")) = str ("b") ++ str ("\n") :=
  ⟨(c9_framing_amended.2.2 (str ("b"))).1,
    (c9_framing_amended.2.2 (str ("b"))).2.2 (by decide)⟩
